import Mathlib

/-
  Shallow embedding of the sqm_project metrics tool (JS/TS code-metrics
  analyzer).  Source files modelled here: information_flow.py, halstead.py,
  size_metrics.py, live_variables.py, oo_metrics.py, testing_metrics.py,
  main.py.  Python strings are modelled as `List Char` (ASCII view of the
  text), Python ints as `Nat`/`Int`, Python floats as exact rationals or
  reals, and a raised exception that escapes a function as `Except.error`.
-/

set_option maxHeartbeats 2000000
set_option maxRecDepth 4000

/-- Python `\s` on ASCII text: space, tab, newline, carriage return,
vertical tab, form feed. -/
def isPySpace (c : Char) : Bool :=
  c == ' ' || c == '\t' || c == '\n' || c == '\r' ||
  c == Char.ofNat 11 || c == Char.ofNat 12

/-- Python `\w` on ASCII text (regex word character). -/
def isWordChar (c : Char) : Bool :=
  c.isAlpha || c.isDigit || c == '_'

/-- First character of `[A-Za-z_][A-Za-z0-9_]*`. -/
def isIdentStart (c : Char) : Bool :=
  c.isAlpha || c == '_'

/-- The single-quote character (spelled via its code point). -/
def squoteCh : Char := Char.ofNat 39

/-- The backtick character (spelled via its code point). -/
def btickCh : Char := Char.ofNat 96

/-
  information_flow._extract_brace_block: the inner string-literal skip,
  `str.find`, and the main scanning loop, then the entry point.  Each
  while-loop over positions is embedded structurally with a fuel argument
  that the wrapper instantiates so that the loop can never exhaust it
  before the position leaves the text: the fueled body agrees with the
  loop wherever `fuel ≥ length - i`, which every call below maintains.
-/

/-- Fueled body of the string-literal skip inside `_extract_brace_block`:
starting just after the opening quote `q`, advance past `\x` escapes (two
characters at a time) until the matching quote; return the index just after
it (or wherever the text ran out). -/
def skipStringGo (code : List Char) (q : Char) : Nat → Nat → Nat
  | 0, i => i
  | fuel + 1, i =>
    if h : i < code.length then
      if code[i] = '\\' then skipStringGo code q fuel (i + 2)
      else if code[i] = q then i + 1
      else skipStringGo code q fuel (i + 1)
    else i

/-- The string-literal skip loop (`while i < n: ...` over the quote body). -/
def skipString (code : List Char) (q : Char) (i : Nat) : Nat :=
  skipStringGo code q (code.length - i) i

theorem le_skipStringGo (code : List Char) (q : Char) :
    ∀ (fuel i : Nat), i ≤ skipStringGo code q fuel i := by
  intro fuel
  induction fuel with
  | zero => intro i; simp [skipStringGo]
  | succ fuel ih =>
    intro i
    simp only [skipStringGo]
    by_cases h : i < code.length
    · rw [dif_pos h]
      by_cases hc : code[i] = '\\'
      · rw [if_pos hc]
        have := ih (i + 2)
        omega
      · rw [if_neg hc]
        by_cases hq : code[i] = q
        · rw [if_pos hq]
          omega
        · rw [if_neg hq]
          have := ih (i + 1)
          omega
    · rw [dif_neg h]

theorem le_skipString (code : List Char) (q : Char) (i : Nat) :
    i ≤ skipString code q i :=
  le_skipStringGo code q (code.length - i) i

/-- Fueled body of Python `code.find(pat, s)`. -/
def findFromGo (code pat : List Char) : Nat → Nat → Option Nat
  | 0, _ => none
  | fuel + 1, s =>
    if s < code.length then
      if (code.drop s).take pat.length = pat then some s
      else findFromGo code pat fuel (s + 1)
    else none

/-- Python `code.find(pat, s)` (smallest index `j ≥ s` where `pat` occurs as
a contiguous slice), returning `none` for Python's `-1`. -/
def findFrom (code pat : List Char) (s : Nat) : Option Nat :=
  findFromGo code pat (code.length - s) s

theorem findFromGo_ge (code pat : List Char) :
    ∀ {fuel s j : Nat}, findFromGo code pat fuel s = some j → s ≤ j := by
  intro fuel
  induction fuel with
  | zero => intro s j h; simp [findFromGo] at h
  | succ fuel ih =>
    intro s j h
    simp only [findFromGo] at h
    by_cases hs : s < code.length
    · rw [if_pos hs] at h
      by_cases hm : (code.drop s).take pat.length = pat
      · rw [if_pos hm] at h
        simp only [Option.some.injEq] at h
        omega
      · rw [if_neg hm] at h
        have := ih h
        omega
    · rw [if_neg hs] at h
      cases h

theorem findFrom_ge {code pat : List Char} {s j : Nat}
    (h : findFrom code pat s = some j) : s ≤ j :=
  findFromGo_ge code pat h

/-- Fueled body of the main scan of `_extract_brace_block`: scan forward
from `i` with nesting `depth`, skipping string/template literals, block
comments and line comments; on the matching close brace return
`(code[i0+1:i], i+1)`; if the text runs out (or a comment is unterminated)
return the remainder after the opening brace together with `len(code)`. -/
def scanLoopGo (code : List Char) (i0 : Nat) : Nat → Nat → Nat → List Char × Nat
  | 0, _, _ => (code.drop (i0 + 1), code.length)
  | fuel + 1, depth, i =>
    if h : i < code.length then
      let c := code[i]
      if c = '"' ∨ c = squoteCh ∨ c = btickCh then
        scanLoopGo code i0 fuel depth (skipString code c (i + 1))
      else if (code.drop i).take 2 = ['/', '*'] then
        match findFrom code ['*', '/'] (i + 2) with
        | none => (code.drop (i0 + 1), code.length)
        | some j => scanLoopGo code i0 fuel depth (j + 2)
      else if (code.drop i).take 2 = ['/', '/'] then
        match findFrom code ['\n'] (i + 2) with
        | none => (code.drop (i0 + 1), code.length)
        | some j => scanLoopGo code i0 fuel depth (j + 1)
      else if c = '{' then
        scanLoopGo code i0 fuel (depth + 1) (i + 1)
      else if c = '}' then
        if depth = 0 then ((code.drop (i0 + 1)).take (i - (i0 + 1)), i + 1)
        else scanLoopGo code i0 fuel (depth - 1) (i + 1)
      else
        scanLoopGo code i0 fuel depth (i + 1)
    else (code.drop (i0 + 1), code.length)

/-- The main scan loop of `_extract_brace_block`. -/
def scanLoop (code : List Char) (i0 : Nat) (depth : Nat) (i : Nat) :
    List Char × Nat :=
  scanLoopGo code i0 (code.length + 1 - i) depth i

theorem scanLoopGo_snd_le (code : List Char) (i0 : Nat) :
    ∀ (fuel depth i : Nat), (scanLoopGo code i0 fuel depth i).2 ≤ code.length := by
  intro fuel
  induction fuel with
  | zero => intro depth i; simp [scanLoopGo]
  | succ fuel ih =>
    intro depth i
    simp only [scanLoopGo]
    by_cases h : i < code.length
    · rw [dif_pos h]
      by_cases hq : code[i] = '"' ∨ code[i] = squoteCh ∨ code[i] = btickCh
      · rw [if_pos hq]
        exact ih depth _
      · rw [if_neg hq]
        by_cases hb : (code.drop i).take 2 = ['/', '*']
        · rw [if_pos hb]
          cases hf : findFrom code ['*', '/'] (i + 2) with
          | none => simp [hf]
          | some j => simp only [hf]; exact ih depth _
        · rw [if_neg hb]
          by_cases hl : (code.drop i).take 2 = ['/', '/']
          · rw [if_pos hl]
            cases hf : findFrom code ['\n'] (i + 2) with
            | none => simp [hf]
            | some j => simp only [hf]; exact ih depth _
          · rw [if_neg hl]
            by_cases hoc : code[i] = '{'
            · rw [if_pos hoc]
              exact ih (depth + 1) _
            · rw [if_neg hoc]
              by_cases hcc : code[i] = '}'
              · rw [if_pos hcc]
                by_cases hd : depth = 0
                · rw [if_pos hd]
                  omega
                · rw [if_neg hd]
                  exact ih (depth - 1) _
              · rw [if_neg hcc]
                exact ih depth _
    · rw [dif_neg h]

theorem scanLoop_snd_le (code : List Char) (i0 : Nat) (depth i : Nat) :
    (scanLoop code i0 depth i).2 ≤ code.length :=
  scanLoopGo_snd_le code i0 (code.length + 1 - i) depth i

theorem scanLoopGo_spec (code : List Char) (i0 : Nat) :
    ∀ (fuel depth i : Nat),
      scanLoopGo code i0 fuel depth i = (code.drop (i0 + 1), code.length) ∨
      ∃ jm, i ≤ jm ∧ jm < code.length ∧ code[jm]? = some '}' ∧
        scanLoopGo code i0 fuel depth i =
          ((code.drop (i0 + 1)).take (jm - (i0 + 1)), jm + 1) := by
  intro fuel
  induction fuel with
  | zero => intro depth i; exact Or.inl rfl
  | succ fuel ih =>
    intro depth i
    simp only [scanLoopGo]
    by_cases h : i < code.length
    · rw [dif_pos h]
      by_cases hq : code[i] = '"' ∨ code[i] = squoteCh ∨ code[i] = btickCh
      · rw [if_pos hq]
        rcases ih depth (skipString code (code[i]) (i + 1)) with h1 | ⟨jm, hj1, hj2, hj3, hj4⟩
        · exact Or.inl h1
        · refine Or.inr ⟨jm, ?_, hj2, hj3, hj4⟩
          have := le_skipString code (code[i]) (i + 1)
          omega
      · rw [if_neg hq]
        by_cases hb : (code.drop i).take 2 = ['/', '*']
        · rw [if_pos hb]
          cases hf : findFrom code ['*', '/'] (i + 2) with
          | none => exact Or.inl (by simp [hf])
          | some j =>
            simp only [hf]
            rcases ih depth (j + 2) with h1 | ⟨jm, hj1, hj2, hj3, hj4⟩
            · exact Or.inl h1
            · refine Or.inr ⟨jm, ?_, hj2, hj3, hj4⟩
              have := findFrom_ge hf
              omega
        · rw [if_neg hb]
          by_cases hl : (code.drop i).take 2 = ['/', '/']
          · rw [if_pos hl]
            cases hf : findFrom code ['\n'] (i + 2) with
            | none => exact Or.inl (by simp [hf])
            | some j =>
              simp only [hf]
              rcases ih depth (j + 1) with h1 | ⟨jm, hj1, hj2, hj3, hj4⟩
              · exact Or.inl h1
              · refine Or.inr ⟨jm, ?_, hj2, hj3, hj4⟩
                have := findFrom_ge hf
                omega
          · rw [if_neg hl]
            by_cases hoc : code[i] = '{'
            · rw [if_pos hoc]
              rcases ih (depth + 1) (i + 1) with h1 | ⟨jm, hj1, hj2, hj3, hj4⟩
              · exact Or.inl h1
              · exact Or.inr ⟨jm, by omega, hj2, hj3, hj4⟩
            · rw [if_neg hoc]
              by_cases hcc : code[i] = '}'
              · rw [if_pos hcc]
                by_cases hd : depth = 0
                · rw [if_pos hd]
                  refine Or.inr ⟨i, le_refl i, h, ?_, rfl⟩
                  rw [List.getElem?_eq_getElem h, hcc]
                · rw [if_neg hd]
                  rcases ih (depth - 1) (i + 1) with h1 | ⟨jm, hj1, hj2, hj3, hj4⟩
                  · exact Or.inl h1
                  · exact Or.inr ⟨jm, by omega, hj2, hj3, hj4⟩
              · rw [if_neg hcc]
                rcases ih depth (i + 1) with h1 | ⟨jm, hj1, hj2, hj3, hj4⟩
                · exact Or.inl h1
                · exact Or.inr ⟨jm, by omega, hj2, hj3, hj4⟩
    · rw [dif_neg h]
      exact Or.inl rfl

theorem scanLoop_spec (code : List Char) (i0 : Nat) (depth i : Nat) :
    scanLoop code i0 depth i = (code.drop (i0 + 1), code.length) ∨
    ∃ jm, i ≤ jm ∧ jm < code.length ∧ code[jm]? = some '}' ∧
      scanLoop code i0 depth i =
        ((code.drop (i0 + 1)).take (jm - (i0 + 1)), jm + 1) :=
  scanLoopGo_spec code i0 (code.length + 1 - i) depth i

/-- Model of `information_flow._extract_brace_block(code, start_index)`:
returns `(body, end_index)` of the brace block whose opening brace sits at
`start_index`; if the character there is not an opening brace (or the index
is out of range) it returns `('', start_index)` unchanged. -/
def _extract_brace_block (code : List Char) (start_index : Nat) :
    List Char × Nat :=
  match code[start_index]? with
  | some c => if c = '{' then scanLoop code start_index 0 (start_index + 1)
              else ([], start_index)
  | none => ([], start_index)

/-
  Association lists with Python-dict semantics (keyed lookup, assignment
  replaces in place or appends).  Used for `functions`, `classes`, `parents`.
-/

/-- Lookup in an association list (Python `d.get(k)` / `d[k]`). -/
def alookup {α : Type} [DecidableEq α] {β : Type} :
    List (α × β) → α → Option β
  | [], _ => none
  | (k, v) :: t, key => if k = key then some v else alookup t key

/-- Python dict assignment `d[k] = v`: replace the existing binding in place
or append a new one. -/
def aset {α : Type} [DecidableEq α] {β : Type} :
    List (α × β) → α → β → List (α × β)
  | [], key, v => [(key, v)]
  | (k, w) :: t, key, v =>
      if k = key then (key, v) :: t else (k, w) :: aset t key v

theorem alookup_aset_self {α β : Type} [DecidableEq α]
    (l : List (α × β)) (k : α) (v : β) : alookup (aset l k v) k = some v := by
  induction l with
  | nil => simp [aset, alookup]
  | cons p t ih =>
    obtain ⟨k', w⟩ := p
    by_cases h : k' = k
    · simp [aset, alookup, h]
    · simp [aset, alookup, h, ih]

theorem alookup_aset_ne {α β : Type} [DecidableEq α]
    (l : List (α × β)) (k k' : α) (v : β) (h : k ≠ k') :
    alookup (aset l k v) k' = alookup l k' := by
  induction l with
  | nil => simp [aset, alookup, h]
  | cons p t ih =>
    obtain ⟨k0, w⟩ := p
    by_cases h0 : k0 = k
    · simp [aset, alookup, h0, h]
    · simp [aset, alookup, h0, ih]

theorem aset_keys {α β : Type} [DecidableEq α]
    (l : List (α × β)) (k : α) (v : β) :
    ((aset l k v).map Prod.fst = l.map Prod.fst ∧ k ∈ l.map Prod.fst) ∨
    ((aset l k v).map Prod.fst = l.map Prod.fst ++ [k] ∧ k ∉ l.map Prod.fst) := by
  induction l with
  | nil => simp [aset]
  | cons p t ih =>
    obtain ⟨k0, w⟩ := p
    by_cases h0 : k0 = k
    · exact Or.inl (by simp [aset, h0])
    · rcases ih with ⟨h1, h2⟩ | ⟨h1, h2⟩
      · exact Or.inl (by simp [aset, h0, h1, h2])
      · refine Or.inr ⟨by simp [aset, h0, h1], ?_⟩
        simp only [List.map_cons, List.mem_cons]
        rintro (hc | hc)
        · exact h0 hc.symm
        · exact h2 hc

theorem aset_keys_nodup {α β : Type} [DecidableEq α]
    (l : List (α × β)) (k : α) (v : β) (h : (l.map Prod.fst).Nodup) :
    ((aset l k v).map Prod.fst).Nodup := by
  rcases aset_keys l k v with ⟨h1, _⟩ | ⟨h1, h2⟩
  · rw [h1]; exact h
  · rw [h1]
    simp [List.nodup_append, h, h2]

/-- Membership of a key after lookup succeeds. -/
theorem alookup_mem_keys {α β : Type} [DecidableEq α]
    {l : List (α × β)} {k : α} {v : β} (h : alookup l k = some v) :
    k ∈ l.map Prod.fst := by
  induction l with
  | nil => simp [alookup] at h
  | cons p t ih =>
    obtain ⟨k0, w⟩ := p
    by_cases h0 : k0 = k
    · simp [h0]
    · rw [alookup, if_neg h0] at h
      simp [ih h]

/-
  Deterministic matchers for the fixed regular expressions of
  information_flow.compute_fan_in_out.  Each component uses maximal munch;
  for these patterns that coincides with the regex engine's backtracking
  search because every repeated class is disjoint from the character that
  must follow it.
-/

/-- Match a literal at position `i` (Python `code[i:i+len(pat)] == pat`),
returning the position just past it. -/
def litAt (code pat : List Char) (i : Nat) : Option Nat :=
  if (code.drop i).take pat.length = pat then some (i + pat.length) else none

/-- Fueled body of the greedy repetition scan. -/
def munchGo (p : Char → Bool) (code : List Char) : Nat → Nat → Nat
  | 0, i => i
  | fuel + 1, i =>
    if h : i < code.length then
      if p code[i] then munchGo p code fuel (i + 1) else i
    else i

/-- Greedy repetition of a character class from `i`: the first position at
or after `i` whose character is not in the class (or the end of text). -/
def munch (p : Char → Bool) (code : List Char) (i : Nat) : Nat :=
  munchGo p code (code.length - i) i

/-- Regex `\s+`: at least one whitespace character, then greedy. -/
def wsPlus (code : List Char) (i : Nat) : Option Nat :=
  if h : i < code.length then
    if isPySpace code[i] then some (munch isPySpace code (i + 1)) else none
  else none

/-- Regex `([A-Za-z_][A-Za-z0-9_]*)`: an identifier with its end position. -/
def identAt (code : List Char) (i : Nat) : Option (List Char × Nat) :=
  if h : i < code.length then
    if isIdentStart code[i] then
      some ((code.drop i).take (munch isWordChar code (i + 1) - i),
            munch isWordChar code (i + 1))
    else none
  else none

/-- Regex `\([^)]*\)`: an opening parenthesis, a run of non-`)` characters,
and the closing parenthesis. -/
def parenAt (code : List Char) (i : Nat) : Option Nat :=
  if h : i < code.length then
    if code[i] = '(' then
      if munch (fun c => !(c == ')')) code (i + 1) < code.length then
        some (munch (fun c => !(c == ')')) code (i + 1) + 1)
      else none
    else none
  else none

/-- Regex `(?:async\s*)?`: optionally the literal `async` then whitespace. -/
def optAsync (code : List Char) (i : Nat) : Nat :=
  match litAt code "async".toList i with
  | some j => munch isPySpace code j
  | none => i

/-- Shared tail `\s*=\s*(?:async\s*)?\([^)]*\)\s*=>\s*\{` of the three
arrow-function declaration patterns. -/
def arrowTail (code : List Char) (i : Nat) : Option Nat := do
  let i2 ← litAt code ['='] (munch isPySpace code i)
  let i5 ← parenAt code (optAsync code (munch isPySpace code i2))
  let i7 ← litAt code ['=', '>'] (munch isPySpace code i5)
  litAt code ['{'] (munch isPySpace code i7)

/-- Pattern `function\s+([A-Za-z_][A-Za-z0-9_]*)\s*\([^)]*\)\s*\{`. -/
def p_function (code : List Char) (i : Nat) : Option (List Char × Nat) := do
  let i1 ← litAt code "function".toList i
  let i2 ← wsPlus code i1
  let (name, i3) ← identAt code i2
  let i5 ← parenAt code (munch isPySpace code i3)
  let i7 ← litAt code ['{'] (munch isPySpace code i5)
  pure (name, i7)

/-- Pattern `exports\.([A-Za-z_][A-Za-z0-9_]*)\s*=\s*(?:async\s*)?\([^)]*\)\s*=>\s*\{`. -/
def p_exports (code : List Char) (i : Nat) : Option (List Char × Nat) := do
  let i1 ← litAt code "exports.".toList i
  let (name, i2) ← identAt code i1
  let i3 ← arrowTail code i2
  pure (name, i3)

/-- Pattern `module\.exports\.NAME ... => \{` (same tail as `exports.`). -/
def p_module_exports (code : List Char) (i : Nat) : Option (List Char × Nat) := do
  let i1 ← litAt code "module.exports.".toList i
  let (name, i2) ← identAt code i1
  let i3 ← arrowTail code i2
  pure (name, i3)

/-- Pattern `(?:const|let|var)\s+NAME\s*=\s*(?:async\s*)?\([^)]*\)\s*=>\s*\{`. -/
def p_const_arrow (code : List Char) (i : Nat) : Option (List Char × Nat) := do
  let i1 ← (litAt code "const".toList i <|> litAt code "let".toList i <|>
            litAt code "var".toList i)
  let i2 ← wsPlus code i1
  let (name, i3) ← identAt code i2
  let i4 ← arrowTail code i3
  pure (name, i4)

/-- Fueled body of the match scan. -/
def finditerGo {α : Type} (m : List Char → Nat → Option (α × Nat))
    (code : List Char) : Nat → Nat → List (α × Nat × Nat)
  | 0, _ => []
  | fuel + 1, s =>
    if s < code.length then
      match m code s with
      | some (cap, e) => (cap, s, e) :: finditerGo m code fuel (max e (s + 1))
      | none => finditerGo m code fuel (s + 1)
    else []

/-- Python `re.finditer`: scan positions left to right, emit each match as
`(capture, start, end)` and continue at its end (our patterns never match
the empty string, so the end is always past the start). -/
def finditerAux {α : Type} (m : List Char → Nat → Option (α × Nat))
    (code : List Char) (s : Nat) : List (α × Nat × Nat) :=
  finditerGo m code (code.length - s) s

/-- All matches of the four declaration patterns, in the order the Python
code iterates them (pattern by pattern, each left to right). -/
def allFnMatches (code : List Char) : List (List Char × Nat × Nat) :=
  finditerAux p_function code 0 ++ finditerAux p_exports code 0 ++
  finditerAux p_module_exports code 0 ++ finditerAux p_const_arrow code 0

/-- The value stored in `functions[name]`: `(body, m.start(), endpos)` where
`body, endpos = _extract_brace_block(code, m.end()-1)`. -/
def storedVal (code : List Char) (m : List Char × Nat × Nat) :
    List Char × Nat × Nat :=
  ((_extract_brace_block code (m.2.2 - 1)).1, m.2.1,
   (_extract_brace_block code (m.2.2 - 1)).2)

/-- One iteration of the declaration-collection loop: keep the earliest
occurrence when the same name is matched again
(`if name not in functions or m.start() < functions[name][1]`). -/
def buildStep (code : List Char)
    (fns : List (List Char × (List Char × Nat × Nat)))
    (m : List Char × Nat × Nat) : List (List Char × (List Char × Nat × Nat)) :=
  match alookup fns m.1 with
  | none => aset fns m.1 (storedVal code m)
  | some e => if m.2.1 < e.2.1 then aset fns m.1 (storedVal code m) else fns

/-- The `functions` table of compute_fan_in_out. -/
def buildFunctions (code : List Char) :
    List (List Char × (List Char × Nat × Nat)) :=
  (allFnMatches code).foldl (buildStep code) []

/-- Call regex `([A-Za-z_][A-Za-z0-9_]*)\.([A-Za-z_][A-Za-z0-9_]*)\s*\(`
capturing the method name (group 2). -/
def m_method_call (code : List Char) (i : Nat) : Option (List Char × Nat) := do
  let (_, i1) ← identAt code i
  let i2 ← litAt code ['.'] i1
  let (callee, i3) ← identAt code i2
  let i5 ← litAt code ['('] (munch isPySpace code i3)
  pure (callee, i5)

/-- Call regex `([A-Za-z_][A-Za-z0-9_]*)\s*\(` capturing the callee name. -/
def m_func_call (code : List Char) (i : Nat) : Option (List Char × Nat) := do
  let (callee, i1) ← identAt code i
  let i3 ← litAt code ['('] (munch isPySpace code i1)
  pure (callee, i3)

/-- The fixed `ignore_names` set of keywords and common builtins. -/
def ignore_names : List (List Char) :=
  ["if".toList, "for".toList, "while".toList, "switch".toList,
   "catch".toList, "return".toList, "new".toList, "console".toList,
   "Math".toList, "Object".toList, "Array".toList]

/-- Every callee name captured in a body, method calls first then plain
calls, before any filtering (one entry per regex match). -/
def rawCallees (body : List Char) : List (List Char) :=
  (finditerAux m_method_call body 0).map (fun m => m.1) ++
  (finditerAux m_func_call body 0).map (fun m => m.1)

/-- The callee set `name_to_callees[fname]`: captured names other than the
function itself and outside the ignore set, as a deduplicated list. -/
def calleesOf (fname body : List Char) : List (List Char) :=
  ((rawCallees body).filter
    (fun c => decide (c ≠ fname ∧ c ∉ ignore_names))).dedup

/-- Per-function result record of compute_fan_in_out. -/
structure FlowM where
  fan_in : Nat
  fan_out : Nat
  information_flow : Nat
deriving DecidableEq, Repr

/-- Number of detected functions whose callee set contains `name`. -/
def fanInCount (fns : List (List Char × (List Char × Nat × Nat)))
    (name : List Char) : Nat :=
  fns.countP (fun p => decide (name ∈ calleesOf p.1 p.2.1))

/-- Model of `information_flow.compute_fan_in_out(code)`: the mapping
function name to fan-in, fan-out and `(fan_in*fan_out)**2`. -/
def compute_fan_in_out (code : List Char) : List (List Char × FlowM) :=
  let fns := buildFunctions code
  fns.map (fun p =>
    (p.1, ⟨fanInCount fns p.1, (calleesOf p.1 p.2.1).length,
           (fanInCount fns p.1 * (calleesOf p.1 p.2.1).length) ^ 2⟩))

/-- Invariant of the declaration-collection fold: every table entry comes
from a processed match and realizes the smallest start offset among the
processed matches of its name, and every processed name is in the table. -/
def BuildInv (code : List Char)
    (fns : List (List Char × (List Char × Nat × Nat)))
    (ms : List (List Char × Nat × Nat)) : Prop :=
  (∀ n e, alookup fns n = some e →
     (∃ m, m ∈ ms ∧ m.1 = n ∧ e = storedVal code m) ∧
     (∀ m', m' ∈ ms → m'.1 = n → e.2.1 ≤ m'.2.1)) ∧
  (∀ m, m ∈ ms → ∃ e, alookup fns m.1 = some e)

theorem buildStep_inv {code : List Char}
    {fns : List (List Char × (List Char × Nat × Nat))}
    {ms : List (List Char × Nat × Nat)} (m : List Char × Nat × Nat)
    (hinv : BuildInv code fns ms) :
    BuildInv code (buildStep code fns m) (ms ++ [m]) := by
  obtain ⟨h1, h2⟩ := hinv
  have hset : ∀ hstep : buildStep code fns m = aset fns m.1 (storedVal code m),
      (∀ m', m' ∈ ms → m'.1 = m.1 → (storedVal code m).2.1 ≤ m'.2.1) →
      BuildInv code (buildStep code fns m) (ms ++ [m]) := by
    intro hstep hminnew
    rw [hstep]
    constructor
    · intro n e he
      by_cases hn : m.1 = n
      · subst hn
        rw [alookup_aset_self] at he
        cases he
        constructor
        · exact ⟨m, by simp, rfl, rfl⟩
        · intro m' hm' hname
          rcases List.mem_append.mp hm' with hm' | hm'
          · exact hminnew m' hm' hname
          · simp at hm'
            subst hm'
            simp [storedVal]
      · rw [alookup_aset_ne _ _ _ _ hn] at he
        obtain ⟨⟨m0, hm0, hm0n, hm0v⟩, hmin⟩ := h1 n e he
        refine ⟨⟨m0, by simp [hm0], hm0n, hm0v⟩, ?_⟩
        intro m' hm' hname
        rcases List.mem_append.mp hm' with hm' | hm'
        · exact hmin m' hm' hname
        · simp at hm'
          subst hm'
          exact absurd hname hn
    · intro m' hm'
      rcases List.mem_append.mp hm' with hm' | hm'
      · obtain ⟨e', he'⟩ := h2 m' hm'
        by_cases hn : m.1 = m'.1
        · exact ⟨storedVal code m, by rw [← hn, alookup_aset_self]⟩
        · exact ⟨e', by rw [alookup_aset_ne _ _ _ _ hn]; exact he'⟩
      · simp at hm'
        exact ⟨storedVal code m, by rw [hm', alookup_aset_self]⟩
  cases hl : alookup fns m.1 with
  | none =>
    refine hset (by unfold buildStep; rw [hl]) ?_
    intro m' hm' hname
    obtain ⟨e', he'⟩ := h2 m' hm'
    rw [hname, hl] at he'
    cases he'
  | some e0 =>
    by_cases hlt : m.2.1 < e0.2.1
    · refine hset (by unfold buildStep; rw [hl]; exact if_pos hlt) ?_
      intro m' hm' hname
      have := (h1 m.1 e0 hl).2 m' hm' hname
      simp only [storedVal]
      omega
    · have hstep : buildStep code fns m = fns := by
        unfold buildStep; rw [hl]; exact if_neg hlt
      rw [hstep]
      constructor
      · intro n e he
        obtain ⟨⟨m0, hm0, hm0n, hm0v⟩, hmin⟩ := h1 n e he
        refine ⟨⟨m0, by simp [hm0], hm0n, hm0v⟩, ?_⟩
        intro m' hm' hname
        rcases List.mem_append.mp hm' with hm' | hm'
        · exact hmin m' hm' hname
        · simp at hm'
          subst hm'
          have : e = e0 := by rw [← hname, hl] at he; cases he; rfl
          subst this
          omega
      · intro m' hm'
        rcases List.mem_append.mp hm' with hm' | hm'
        · exact h2 m' hm'
        · simp at hm'
          subst hm'
          exact ⟨e0, hl⟩

theorem buildFold_inv (code : List Char) :
    ∀ (ms : List (List Char × Nat × Nat))
      (fns : List (List Char × (List Char × Nat × Nat)))
      (acc : List (List Char × Nat × Nat)),
      BuildInv code fns acc →
      BuildInv code (ms.foldl (buildStep code) fns) (acc ++ ms) := by
  intro ms
  induction ms with
  | nil => intro fns acc h; simpa using h
  | cons m t ih =>
    intro fns acc h
    have := ih (buildStep code fns m) (acc ++ [m]) (buildStep_inv m h)
    simpa using this

theorem buildFunctions_inv (code : List Char) :
    BuildInv code (buildFunctions code) (allFnMatches code) := by
  have h0 : BuildInv code [] [] := by
    constructor
    · intro n e he
      simp [alookup] at he
    · intro m mem
      simp at mem
  have := buildFold_inv code (allFnMatches code) [] [] h0
  simpa [buildFunctions] using this

theorem buildStep_keys_nodup {code : List Char}
    {fns : List (List Char × (List Char × Nat × Nat))}
    (m : List Char × Nat × Nat) (h : (fns.map Prod.fst).Nodup) :
    (((buildStep code fns m).map Prod.fst)).Nodup := by
  unfold buildStep
  cases alookup fns m.1 with
  | none => exact aset_keys_nodup _ _ _ h
  | some e =>
    simp only []
    by_cases hlt : m.2.1 < e.2.1
    · rw [if_pos hlt]; exact aset_keys_nodup _ _ _ h
    · rw [if_neg hlt]; exact h

theorem buildFunctions_keys_nodup (code : List Char) :
    (((buildFunctions code).map Prod.fst)).Nodup := by
  have : ∀ (ms : List (List Char × Nat × Nat))
      (fns : List (List Char × (List Char × Nat × Nat))),
      (fns.map Prod.fst).Nodup →
      ((ms.foldl (buildStep code) fns).map Prod.fst).Nodup := by
    intro ms
    induction ms with
    | nil => intro fns h; simpa using h
    | cons m t ih =>
      intro fns h
      exact ih (buildStep code fns m) (buildStep_keys_nodup m h)
  exact this (allFnMatches code) [] (by simp)

/-
  Counting lemmas used for the fan-in versus fan-out comparison.
-/

theorem sum_map_add {α : Type} (l : List α) (f g : α → Nat) :
    (l.map fun a => f a + g a).sum = (l.map f).sum + (l.map g).sum := by
  induction l with
  | nil => simp
  | cons a t ih => simp [ih]; omega

theorem countP_eq_sum_map {α : Type} (p : α → Bool) (l : List α) :
    l.countP p = (l.map fun a => if p a then 1 else 0).sum := by
  induction l with
  | nil => simp
  | cons a t ih =>
    rw [List.countP_cons, ih]
    simp only [List.map_cons, List.sum_cons]
    omega

theorem sum_countP_comm {α β : Type} (l1 : List α) (l2 : List β)
    (p : α → β → Bool) :
    (l1.map fun a => l2.countP (fun b => p a b)).sum =
    (l2.map fun b => l1.countP (fun a => p a b)).sum := by
  induction l1 with
  | nil => simp
  | cons a t ih =>
    simp only [List.map_cons, List.sum_cons, ih]
    have h1 : ∀ b, (a :: t).countP (fun a' => p a' b) =
        (if p a b then 1 else 0) + t.countP (fun a' => p a' b) := by
      intro b
      rw [List.countP_cons]
      omega
    calc l2.countP (fun b => p a b) +
          (l2.map fun b => t.countP (fun a' => p a' b)).sum
        = (l2.map fun b => if p a b then 1 else 0).sum +
          (l2.map fun b => t.countP (fun a' => p a' b)).sum := by
          rw [countP_eq_sum_map]
      _ = (l2.map fun b => (if p a b then 1 else 0) +
            t.countP (fun a' => p a' b)).sum := by
          rw [sum_map_add]
      _ = (l2.map fun b => (a :: t).countP (fun a' => p a' b)).sum := by
          congr 1
          exact (List.map_congr_left fun b _ => (h1 b).symm)

theorem nodup_countP_mem_le {α : Type} [DecidableEq α]
    (keys : List α) (m : List α) (h : keys.Nodup) :
    (keys.countP fun a => decide (a ∈ m)) ≤ m.length := by
  rw [List.countP_eq_length_filter]
  have hnd : (keys.filter fun a => decide (a ∈ m)).Nodup := List.Nodup.filter _ h
  have hsub : (keys.filter fun a => decide (a ∈ m)).toFinset ⊆ m.toFinset := by
    intro x hx
    rw [List.mem_toFinset] at hx
    rw [List.mem_toFinset]
    have := List.of_mem_filter hx
    simpa using this
  calc (keys.filter fun a => decide (a ∈ m)).length
      = (keys.filter fun a => decide (a ∈ m)).toFinset.card :=
        (List.toFinset_card_of_nodup hnd).symm
    _ ≤ m.toFinset.card := Finset.card_le_card hsub
    _ ≤ m.length := m.toFinset_card_le

/-
  size_metrics.compute_size_metrics.
-/

/-- Python `str.splitlines` restricted to the ASCII line breaks that can
appear in the analyzed text: `\n`, `\r\n` and `\r`. -/
def splitlinesAux : List Char → List Char → List (List Char)
  | [], acc => if acc.isEmpty then [] else [acc.reverse]
  | c :: rest, acc =>
    if c = '\n' then acc.reverse :: splitlinesAux rest []
    else if c = '\r' then
      acc.reverse ::
        splitlinesAux (if rest.take 1 = ['\n'] then rest.drop 1 else rest) []
    else splitlinesAux rest (c :: acc)
termination_by l _ => l.length
decreasing_by
  all_goals simp only [List.length_cons]
  · omega
  · split
    · simp only [List.length_drop]
      omega
    · omega
  · omega

/-- The lines of a text, `code.splitlines()`. -/
def splitlines (code : List Char) : List (List Char) :=
  splitlinesAux code []

/-- Python `str.strip()` on ASCII text. -/
def pyStrip (l : List Char) : List Char :=
  ((l.dropWhile isPySpace).reverse.dropWhile isPySpace).reverse

/-- Python substring containment `pat in text`. -/
def hasSub : List Char → List Char → Bool
  | [], pat => pat.isEmpty
  | text@(_ :: rest), pat => (text.take pat.length == pat) || hasSub rest pat

/-- Python `str.startswith`. -/
def pyStartsWith (l pat : List Char) : Bool :=
  l.take pat.length == pat

/-- Per-file result of compute_size_metrics (always a populated mapping for
string input; the `code is None` guard of the Python never fires inside
analyze_project, where `code` is always a string). -/
structure SizeRes where
  LOC : Nat
  SLOC : Int
  CommentLines : Nat
  BlankLines : Nat
  AvgLineLength : ℚ
deriving DecidableEq, Repr

/-- One iteration of the line-classification loop; the state is
`(in_block, blank_lines, comment_lines, total_len)`. -/
def sizeLineStep (st : Bool × Nat × Nat × Nat) (line : List Char) :
    Bool × Nat × Nat × Nat :=
  let stripped := pyStrip line
  let tl := st.2.2.2 + line.length
  if stripped.isEmpty then (st.1, st.2.1 + 1, st.2.2.1, tl)
  else if st.1 then
    (if hasSub stripped ['*', '/'] then false else true,
     st.2.1, st.2.2.1 + 1, tl)
  else if pyStartsWith stripped ['/', '/'] then (st.1, st.2.1, st.2.2.1 + 1, tl)
  else if pyStartsWith stripped ['/', '*'] then
    (!(hasSub stripped ['*', '/']), st.2.1, st.2.2.1 + 1, tl)
  else (st.1, st.2.1, st.2.2.1, tl)

/-- Model of `size_metrics.compute_size_metrics(code)`. -/
def compute_size_metrics (code : List Char) : SizeRes :=
  let lines := splitlines code
  let loc := lines.length
  let st := lines.foldl sizeLineStep (false, 0, 0, 0)
  ⟨loc, (loc : Int) - st.2.2.1 - st.2.1, st.2.2.1, st.2.1,
   if loc > 0 then (st.2.2.2 : ℚ) / loc else 0⟩

/-
  live_variables.compute_live_vars.
-/

/-- Regex word boundary `\b` immediately before position `i` (the next
character is a word character whenever these matchers go on to require
one). -/
def boundaryAt (code : List Char) (i : Nat) : Bool :=
  match i with
  | 0 => true
  | j + 1 =>
    match code[j]? with
    | some c => !(isWordChar c)
    | none => true

/-- Declaration regex `\b(?:let|const|var)\s+([A-Za-z_][A-Za-z0-9_]*)`. -/
def m_decl (code : List Char) (i : Nat) : Option (List Char × Nat) :=
  if boundaryAt code i then do
    let i1 ← (litAt code "let".toList i <|> litAt code "const".toList i <|>
              litAt code "var".toList i)
    let i2 ← wsPlus code i1
    let (name, i3) ← identAt code i2
    pure (name, i3)
  else none

/-- Usage regex `\b([A-Za-z_][A-Za-z0-9_]*)\b` (the trailing boundary is
automatic after a maximal identifier run). -/
def m_word (code : List Char) (i : Nat) : Option (List Char × Nat) :=
  if boundaryAt code i then identAt code i else none

/-- Model of `live_variables.compute_live_vars(code)`: the number of
distinct declared names and the usage-per-declaration ratio. -/
def compute_live_vars (code : List Char) : Nat × ℚ :=
  let vars_declared := (finditerAux m_decl code 0).map (fun m => m.1)
  let vars_used := (finditerAux m_word code 0).map (fun m => m.1)
  let unique_vars := vars_declared.dedup
  (unique_vars.length, (vars_used.length : ℚ) / (max 1 unique_vars.length))

/-
  oo_metrics.compute_oo_metrics.
-/

/-- Class regex
`class\s+([A-Za-z_][A-Za-z0-9_]*)(?:\s+extends\s+([A-Za-z_][A-Za-z0-9_]*))?\s*\{`,
capturing the class name and the optional parent name. -/
def p_class (code : List Char) (i : Nat) :
    Option ((List Char × Option (List Char)) × Nat) := do
  let i1 ← litAt code "class".toList i
  let i2 ← wsPlus code i1
  let (name, i3) ← identAt code i2
  let ext : Option (List Char × Nat) := do
    let j1 ← wsPlus code i3
    let j2 ← litAt code "extends".toList j1
    let j3 ← wsPlus code j2
    let (p, j4) ← identAt code j3
    pure (p, j4)
  match ext with
  | some (p, i4) =>
    let i5 ← litAt code ['{'] (munch isPySpace code i4)
    pure ((name, some p), i5)
  | none =>
    let i5 ← litAt code ['{'] (munch isPySpace code i3)
    pure ((name, none), i5)

/-- Method regex `([A-Za-z_][A-Za-z0-9_]*)\s*\([^)]*\)\s*\{` applied inside
a class body. -/
def m_method_decl (code : List Char) (i : Nat) : Option (List Char × Nat) := do
  let (name, i1) ← identAt code i
  let i2 ← parenAt code (munch isPySpace code i1)
  let i3 ← litAt code ['{'] (munch isPySpace code i2)
  pure (name, i3)

/-- Control-flow keywords excluded from method names. -/
def ooKeywords : List (List Char) :=
  ["if".toList, "for".toList, "while".toList, "switch".toList,
   "catch".toList, "return".toList, "new".toList]

/-- The `classes` (name to method count) and `parents` (name to declared
parent) tables collected by the class-detection loop; a repeated class name
overwrites the earlier entry, dict-style. -/
def oo_tables (code : List Char) :
    List (List Char × Nat) × List (List Char × List Char) :=
  (finditerAux p_class code 0).foldl
    (fun tabs m =>
      let body := (_extract_brace_block code (m.2.2 - 1)).1
      let methods :=
        (((finditerAux m_method_decl body 0).map (fun x => x.1)).filter
          (fun nm => decide (nm ∉ ooKeywords))).dedup
      (aset tabs.1 m.1.1 methods.length,
       match m.1.2 with
       | some p => aset tabs.2 m.1.1 p
       | none => tabs.2))
    ([], [])

/-- Fueled body of the recursive `depth_of(cls, seen)` walk. -/
def depthGo (parents : List (List Char × List Char)) :
    Nat → List Char → List (List Char) → Nat
  | 0, _, _ => 0
  | fuel + 1, cls, seen =>
    if cls ∈ seen then 0
    else
      match alookup parents cls with
      | none => 1
      | some p =>
        if p = [] ∨ p = cls then 1
        else 1 + depthGo parents fuel p (cls :: seen)

/-- Model of the recursive `depth_of(cls, seen)` walk: 0 when the class
reappears, 1 when it has no parent, an empty parent or itself as parent,
and otherwise one more than the parent's depth with the class added to the
visited set.  The fuel is one more than the number of declared classes not
yet visited, which the walk can never exhaust: every recursive step
consumes one unvisited declared class. -/
def depth_of (parents : List (List Char × List Char)) (cls : List Char)
    (seen : List (List Char)) : Nat :=
  depthGo parents
    (((parents.map Prod.fst).toFinset \ seen.toFinset).card + 1) cls seen

/-- Per-file result of compute_oo_metrics (absent exactly when the Python
returns the falsy empty dict for empty input). -/
structure OOF where
  TotalClasses : Nat
  TotalMethods : Nat
  AvgMethodsPerClass : ℚ
  MaxInheritanceDepth : Nat
deriving DecidableEq, Repr

/-- Model of `oo_metrics.compute_oo_metrics(code)`. -/
def compute_oo_metrics (code : List Char) : Option OOF :=
  if code.isEmpty then none
  else
    let tabs := oo_tables code
    let total_classes := tabs.1.length
    let total_methods : Nat := (tabs.1.map (fun p => p.2)).sum
    let avg_methods : ℚ :=
      if total_classes > 0 then (total_methods : ℚ) / total_classes else 0
    let max_depth :=
      (tabs.1.map (fun p => depth_of tabs.2 p.1 [])).foldl max 0
    some ⟨total_classes, total_methods, avg_methods, max_depth⟩

/-
  testing_metrics.compute_testing_metrics.
-/

/-- Result record of compute_testing_metrics. -/
structure TestingRes where
  TestFiles : Nat
  SourceFiles : Nat
  TestToSourceRatio : ℚ
deriving DecidableEq, Repr

/-- Whether a lowercased path matches `\.test\.`, `\.spec\.` or
`__tests__` (all three are plain substring searches). -/
def isTestPath (p : List Char) : Bool :=
  let lower := p.map Char.toLower
  hasSub lower ".test.".toList || hasSub lower ".spec.".toList ||
  hasSub lower "__tests__".toList

/-- Model of `testing_metrics.compute_testing_metrics(file_paths)`. -/
def compute_testing_metrics (file_paths : List (List Char)) : TestingRes :=
  if file_paths.isEmpty then ⟨0, 0, 0⟩
  else
    let test_count := file_paths.countP isTestPath
    let src_count := file_paths.length - test_count
    ⟨test_count, src_count, (test_count : ℚ) / (max 1 src_count : Nat)⟩

/-
  halstead.halstead_metrics.
-/

/-- Result record of halstead_metrics; in the Python this is always a
populated (hence truthy) dict, including in the degenerate
`n == 0 or n2 == 0` branch. -/
structure HalsteadRes where
  n1 : Nat
  n2 : Nat
  N1 : Nat
  N2 : Nat
  Vocabulary : Nat
  ProgramLength : Nat
  Volume : ℝ
  Difficulty : ℝ
  Effort : ℝ
  BasicInformation : ℝ

/-- Model of `halstead.halstead_metrics(operators, operands)`; float
arithmetic is idealized over the reals with `math.log2` as `Real.logb 2`. -/
noncomputable def halstead_metrics (operators operands : List (List Char)) :
    HalsteadRes :=
  let n1 := operators.dedup.length
  let n2 := operands.dedup.length
  let N1 := operators.length
  let N2 := operands.length
  let n := n1 + n2
  let N := N1 + N2
  if n = 0 ∨ n2 = 0 then ⟨n1, n2, N1, N2, n, N, 0, 0, 0, 0⟩
  else
    let volume : ℝ := if n > 1 then (N : ℝ) * Real.logb 2 n else 0
    let difficulty : ℝ := ((n1 : ℝ) / 2) * ((N2 : ℝ) / n2)
    ⟨n1, n2, N1, N2, n, N, volume, difficulty, difficulty * volume, volume⟩

/-
  main.analyze_project.  File discovery, file reading and tokenization are
  collaborators: a run is modelled by the list of discovered files, each
  carrying its path, its text (`none` when opening/reading raises) and the
  operator/operand token lists that extract_tokens/classify_tokens supply
  for it.  The five size accumulators (`total_loc`, `total_sloc`,
  `total_comments`, `total_blank`, `total_avg_line_length`) are local
  variables that the Python function reads with `+=` without ever
  initializing them; an unassigned local is modelled as `none` and reading
  it raises `UnboundLocalError`.  An exception escaping analyze_project is
  `Except.error ()`.
-/

/-- One discovered file as the core sees it. -/
structure FileIn where
  path : List Char
  content : Option (List Char)
  ops : List (List Char)
  oprs : List (List Char)
deriving DecidableEq

/-- Accumulator state of the per-file loop of analyze_project. -/
structure AnSt where
  all_ops : List (List Char)
  all_oprs : List (List Char)
  total_live_vars : Nat
  total_avg_live_metric : ℚ
  info_flow_values : List ℚ
  fan_in_values : List ℚ
  fan_out_values : List ℚ
  file_count : Nat
  total_loc : Option Nat
  total_sloc : Option Int
  total_comments : Option Nat
  total_blank : Option Nat
  total_avg_line_length : Option ℚ

/-- The state at entry of analyze_project: the size accumulators are
unassigned locals. -/
def initSt : AnSt :=
  ⟨[], [], 0, 0, [], [], [], 0, none, none, none, none, none⟩

/-- One iteration of the per-file loop, whole body guarded by
`try/except`: an exception inside keeps the updates made so far, skips the
rest of the iteration and moves on. -/
def processFile (st : AnSt) (f : FileIn) : AnSt :=
  let st := { st with file_count := st.file_count + 1 }
  match f.content with
  | none => st
  | some code =>
    let st := { st with all_ops := st.all_ops ++ f.ops,
                        all_oprs := st.all_oprs ++ f.oprs }
    let lv := compute_live_vars code
    let st := { st with total_live_vars := st.total_live_vars + lv.1,
                        total_avg_live_metric := st.total_avg_live_metric + lv.2 }
    let sres := compute_size_metrics code
    match st.total_loc with
    | none => st
    | some tl =>
      let st := { st with total_loc := some (tl + sres.LOC) }
      match st.total_sloc with
      | none => st
      | some tsl =>
        let st := { st with total_sloc := some (tsl + sres.SLOC) }
        match st.total_comments with
        | none => st
        | some tc =>
          let st := { st with total_comments := some (tc + sres.CommentLines) }
          match st.total_blank with
          | none => st
          | some tb =>
            let st := { st with total_blank := some (tb + sres.BlankLines) }
            match st.total_avg_line_length with
            | none => st
            | some tall =>
              let st := { st with
                total_avg_line_length := some (tall + sres.AvgLineLength) }
              let info_flow := compute_fan_in_out code
              { st with
                info_flow_values := st.info_flow_values ++
                  info_flow.map (fun p => ((p.2.information_flow : ℚ))),
                fan_in_values := st.fan_in_values ++
                  info_flow.map (fun p => ((p.2.fan_in : ℚ))),
                fan_out_values := st.fan_out_values ++
                  info_flow.map (fun p => ((p.2.fan_out : ℚ))) }

/-- Aggregated information-flow group of the final report. -/
structure InfoFlowRes where
  AvgInformationFlow : ℚ
  TotalFanIn : ℚ
  TotalFanOut : ℚ
  AvgFanIn : ℚ
  AvgFanOut : ℚ

/-- Aggregated size group of the final report. -/
structure SizeAgg where
  TotalLOC : Nat
  TotalSLOC : Int
  TotalCommentLines : Nat
  TotalBlankLines : Nat
  AvgLineLength : ℚ

/-- Aggregated live-variable group of the final report. -/
structure LiveRes where
  TotalLiveVariables : Nat
  AvgLiveVariablesPerFile : ℚ

/-- Aggregated object-orientation group of the final report. -/
structure OOAgg where
  TotalClasses : Nat
  TotalMethods : Nat
  AvgMethodsPerClass : ℚ
  MaxInheritanceDepth : Nat

/-- The structured result returned on success. -/
structure Report where
  halstead : HalsteadRes
  info_flow : InfoFlowRes
  live_vars : LiveRes
  size : SizeAgg
  oo : OOAgg
  testing : TestingRes

/-- One iteration of the second pass that aggregates OO metrics (its
`try/except: continue` makes an unreadable file contribute nothing, and a
falsy `compute_oo_metrics` result is skipped). -/
def oo_agg_step (acc : Nat × Nat × Nat) (f : FileIn) : Nat × Nat × Nat :=
  match f.content with
  | none => acc
  | some code =>
    match compute_oo_metrics code with
    | none => acc
    | some oo =>
      (acc.1 + oo.TotalClasses, acc.2.1 + oo.TotalMethods,
       max acc.2.2 oo.MaxInheritanceDepth)

/-- Model of `main.analyze_project(directories)` over the discovered file
list: `Except.ok none` is Python's `return None`, `Except.ok (some r)` a
populated report, `Except.error ()` an exception escaping the function. -/
noncomputable def analyze_project (files : List FileIn) :
    Except Unit (Option Report) :=
  match files with
  | [] => Except.ok none
  | _ :: _ =>
    let st := files.foldl processFile initSt
    if st.file_count = 0 then Except.ok none
    else
      let halstead_results := halstead_metrics st.all_ops st.all_oprs
      let avg_info_flow :=
        st.info_flow_values.sum / ((max 1 st.info_flow_values.length : Nat) : ℚ)
      let total_fan_in := st.fan_in_values.sum
      let total_fan_out := st.fan_out_values.sum
      let avg_fan_in := total_fan_in / ((max 1 st.fan_in_values.length : Nat) : ℚ)
      let avg_fan_out :=
        total_fan_out / ((max 1 st.fan_out_values.length : Nat) : ℚ)
      let info_flow_results : InfoFlowRes :=
        ⟨avg_info_flow, total_fan_in, total_fan_out, avg_fan_in, avg_fan_out⟩
      match st.total_avg_line_length with
      | none => Except.error ()
      | some tall =>
        match st.total_loc, st.total_sloc, st.total_comments, st.total_blank with
        | some tl, some tsl, some tc, some tb =>
          let size_results : SizeAgg :=
            ⟨tl, tsl, tc, tb, tall / ((max 1 st.file_count : Nat) : ℚ)⟩
          let live_vars_results : LiveRes :=
            ⟨st.total_live_vars,
             st.total_avg_live_metric / ((max 1 st.file_count : Nat) : ℚ)⟩
          let ooacc := files.foldl oo_agg_step (0, 0, 0)
          let avg_methods_per_class : ℚ :=
            if ooacc.1 > 0 then (ooacc.2.1 : ℚ) / ooacc.1 else 0
          let oo_results : OOAgg :=
            ⟨ooacc.1, ooacc.2.1, avg_methods_per_class, ooacc.2.2⟩
          let test_metrics := compute_testing_metrics (files.map (fun f => f.path))
          Except.ok (some ⟨halstead_results, info_flow_results,
            live_vars_results, size_results, oo_results, test_metrics⟩)
        | _, _, _, _ => Except.error ()

theorem processFile_file_count (st : AnSt) (f : FileIn) :
    (processFile st f).file_count = st.file_count + 1 := by
  obtain ⟨o1, o2, a, b, c, d, e, fc, tl, ts, tc, tb, ta⟩ := st
  cases hc : f.content with
  | none => simp [processFile, hc]
  | some code =>
    cases tl <;> cases ts <;> cases tc <;> cases tb <;> cases ta <;>
      simp [processFile, hc]

theorem processFile_unbound (st : AnSt) (f : FileIn)
    (h1 : st.total_loc = none) :
    (processFile st f).total_loc = none ∧
    (processFile st f).total_avg_line_length = st.total_avg_line_length := by
  obtain ⟨o1, o2, a, b, c, d, e, fc, tl, ts, tc, tb, ta⟩ := st
  simp only [] at h1
  subst h1
  cases hc : f.content with
  | none => simp [processFile, hc]
  | some code => simp [processFile, hc]

theorem foldl_processFile_unbound (files : List FileIn) :
    ∀ st : AnSt, st.total_loc = none → st.total_avg_line_length = none →
      (files.foldl processFile st).total_loc = none ∧
      (files.foldl processFile st).total_avg_line_length = none := by
  induction files with
  | nil => intro st h1 h2; exact ⟨h1, h2⟩
  | cons f t ih =>
    intro st h1 h2
    have hp := processFile_unbound st f h1
    exact ih (processFile st f) hp.1 (hp.2.trans h2)

theorem foldl_processFile_count (files : List FileIn) :
    ∀ st : AnSt,
      (files.foldl processFile st).file_count = st.file_count + files.length := by
  induction files with
  | nil => intro st; simp
  | cons f t ih =>
    intro st
    rw [List.foldl_cons, ih, processFile_file_count]
    simp
    omega

theorem analyze_project_raises (files : List FileIn) (h : files ≠ []) :
    analyze_project files = Except.error () := by
  match files with
  | [] => exact absurd rfl h
  | f :: t =>
    have hfc : ((f :: t).foldl processFile initSt).file_count = t.length + 1 := by
      rw [foldl_processFile_count]
      simp [initSt]
    have hnone := foldl_processFile_unbound (f :: t) initSt rfl rfl
    rw [analyze_project]
    rw [if_neg (by omega)]
    rw [hnone.2]

/-
  Concrete inputs used in the example theorems below.
-/

/-- A minimal source text declaring one function: `function f(){}`. -/
def demoCode : List Char :=
  ['f', 'u', 'n', 'c', 't', 'i', 'o', 'n', ' ', 'f', '(', ')', '{', '}']

/-- An unterminated brace block `{ab`. -/
def demoUnterminated : List Char := ['{', 'a', 'b']

/-- The operator list of the spec's Halstead example. -/
def exOperators : List (List Char) := ["if".toList, "if".toList, "==".toList]

/-- The operand list of the spec's Halstead example. -/
def exOperands : List (List Char) := ["x".toList, "y".toList]

/-- A declared two-cycle: `A extends B`, `B extends A`. -/
def twoCycleParents : List (List Char × List Char) :=
  [(['A'], ['B']), (['B'], ['A'])]

/-- C4 (amended: the starting offset must be at most `len(text)`; an offset
beyond the text is returned unchanged and can exceed the length): for every
input text and every starting offset at most `len(text)`, the block scanner
`_extract_brace_block` terminates and returns an end offset at most
`len(text)`, including on unterminated input. -/
theorem c4_block_scanner_end_le_length (code : List Char) (start : Nat)
    (h : start ≤ code.length) :
    (_extract_brace_block code start).2 ≤ code.length := by
  unfold _extract_brace_block
  cases hq : code[start]? with
  | none => simp only [hq]; exact h
  | some c =>
    simp only [hq]
    by_cases hc : c = '{'
    · rw [if_pos hc]
      exact scanLoop_snd_le code start 0 (start + 1)
    · rw [if_neg hc]
      exact h

/-- C4 counterexample: at starting offset 1 into the empty text the scanner
returns that offset as end offset, and 1 exceeds the text length 0 — so the
claim's bound fails as stated for offsets beyond the text. -/
theorem c4_counterexample_offset_beyond_text :
    ¬ ((_extract_brace_block ([] : List Char) 1).2 ≤ ([] : List Char).length) := by
  decide

theorem c4_block_scanner_end_le_length_witness :
    0 ≤ demoUnterminated.length ∧
    (_extract_brace_block demoUnterminated 0).2 ≤ demoUnterminated.length :=
  ⟨by decide, c4_block_scanner_end_le_length demoUnterminated 0 (by decide)⟩

/-- C5: the block scanner satisfies its contract: when the character at the
starting offset is not an opening brace it returns `("", offset)` as a
no-op, and whenever the scan finds the matching close brace at an index i
it returns the body `text[open+1 .. i]` — the delimiting braces excluded —
together with end offset `i+1`, so that `start < end ≤ len(text)`
(otherwise the remainder is returned with `len(text)`). -/
theorem c5_block_scanner_contract (code : List Char) (start : Nat) :
    (code[start]? ≠ some '{' → _extract_brace_block code start = ([], start)) ∧
    (code[start]? = some '{' →
      _extract_brace_block code start = (code.drop (start + 1), code.length) ∨
      ∃ i, start < i ∧ i < code.length ∧ code[i]? = some '}' ∧
        _extract_brace_block code start =
          ((code.drop (start + 1)).take (i - (start + 1)), i + 1) ∧
        start < i + 1 ∧ i + 1 ≤ code.length) := by
  constructor
  · intro hne
    unfold _extract_brace_block
    cases hq : code[start]? with
    | none => simp
    | some c =>
      rw [hq] at hne
      have hc : ¬ c = '{' := fun hcc => hne (by rw [hcc])
      simp only [if_neg hc]
  · intro hbr
    unfold _extract_brace_block
    rw [hbr]
    simp only [if_pos rfl]
    rcases scanLoop_spec code start 0 (start + 1) with h1 | ⟨jm, hj1, hj2, hj3, hj4⟩
    · exact Or.inl h1
    · exact Or.inr ⟨jm, by omega, hj2, hj3, hj4, by omega, by omega⟩

theorem c5_block_scanner_contract_witness :
    _extract_brace_block ['x'] 0 = ([], 0) :=
  (c5_block_scanner_contract ['x'] 0).1 (by decide)

/-- C6: whenever the function table of compute_fan_in_out has an entry for
a name, that entry is the stored value of one of the pattern matches of
that name, and its start offset is at most the start offset of every match
of that name — the earliest declaration in source order is kept and later
matches of the same name are ignored. -/
theorem c6_earliest_declaration_wins (code : List Char) (n : List Char)
    (e : List Char × Nat × Nat)
    (h : alookup (buildFunctions code) n = some e) :
    ∃ m, m ∈ allFnMatches code ∧ m.1 = n ∧ e = storedVal code m ∧
      ∀ m', m' ∈ allFnMatches code → m'.1 = n → e.2.1 ≤ m'.2.1 := by
  obtain ⟨h1, _⟩ := buildFunctions_inv code
  obtain ⟨⟨m, hm, hmn, hmv⟩, hmin⟩ := h1 n e h
  exact ⟨m, hm, hmn, hmv, hmin⟩

theorem c6_earliest_declaration_wins_witness :
    alookup (buildFunctions demoCode) ['f'] = some ([], 0, 14) ∧
    ∃ m, m ∈ allFnMatches demoCode ∧ m.1 = ['f'] ∧
      (([], 0, 14) : List Char × Nat × Nat) = storedVal demoCode m ∧
      ∀ m', m' ∈ allFnMatches demoCode → m'.1 = ['f'] →
        (([], 0, 14) : List Char × Nat × Nat).2.1 ≤ m'.2.1 :=
  ⟨by decide, c6_earliest_declaration_wins demoCode ['f'] ([], 0, 14) (by decide)⟩

theorem alookup_fan_map (fns0 : List (List Char × (List Char × Nat × Nat))) :
    ∀ (fns : List (List Char × (List Char × Nat × Nat)))
      (name : List Char) (fm : FlowM),
      alookup (fns.map (fun p =>
        (p.1, (⟨fanInCount fns0 p.1, (calleesOf p.1 p.2.1).length,
          (fanInCount fns0 p.1 * (calleesOf p.1 p.2.1).length) ^ 2⟩ : FlowM))))
        name = some fm →
      ∃ ent, alookup fns name = some ent ∧
        fm = ⟨fanInCount fns0 name, (calleesOf name ent.1).length,
          (fanInCount fns0 name * (calleesOf name ent.1).length) ^ 2⟩ := by
  intro fns
  induction fns with
  | nil => intro name fm h; simp [alookup] at h
  | cons p t ih =>
    intro name fm h
    obtain ⟨k, v⟩ := p
    by_cases hk : k = name
    · subst hk
      rw [List.map_cons, alookup, if_pos rfl] at h
      simp only [Option.some.injEq] at h
      exact ⟨v, by rw [alookup, if_pos rfl], h.symm⟩
    · rw [List.map_cons, alookup, if_neg hk] at h
      obtain ⟨ent, hent, hfm⟩ := ih name fm h
      exact ⟨ent, by rw [alookup, if_neg hk]; exact hent, hfm⟩

theorem not_self_mem_calleesOf (fname body : List Char) :
    fname ∉ calleesOf fname body := by
  unfold calleesOf
  intro hmem
  rw [List.mem_dedup] at hmem
  have := List.of_mem_filter hmem
  simp at this

/-- C7: in the result of compute_fan_in_out, the information-flow value of
every reported function equals `(fan_in * fan_out)^2`; a detected function
all of whose captured callee names are its own name has fan-out 0
(self-edges are excluded); and a detected function contained in no other
detected function's callee set has fan-in 0. -/
theorem c7_fan_in_out_information_flow (code : List Char) (name : List Char)
    (fm : FlowM) (h : alookup (compute_fan_in_out code) name = some fm) :
    fm.information_flow = (fm.fan_in * fm.fan_out) ^ 2 ∧
    (∀ ent, alookup (buildFunctions code) name = some ent →
      (∀ c ∈ rawCallees ent.1, c = name) → fm.fan_out = 0) ∧
    ((∀ q ∈ buildFunctions code, q.1 ≠ name → name ∉ calleesOf q.1 q.2.1) →
      fm.fan_in = 0) := by
  unfold compute_fan_in_out at h
  simp only [] at h
  obtain ⟨ent, hent, hfm⟩ :=
    alookup_fan_map (buildFunctions code) (buildFunctions code) name fm h
  subst hfm
  refine ⟨rfl, ?_, ?_⟩
  · intro ent' hent' hall
    rw [hent] at hent'
    cases hent'
    have hemp : calleesOf name ent.1 = [] := by
      unfold calleesOf
      rw [List.filter_eq_nil_iff.mpr, List.dedup_nil]
      intro c hc
      simp only [decide_eq_true_eq, not_and, not_not]
      intro hcn
      exact absurd (hall c hc) hcn
    simp [hemp]
  · intro hno
    have : fanInCount (buildFunctions code) name = 0 := by
      unfold fanInCount
      rw [List.countP_eq_zero]
      intro q hq
      simp only [decide_eq_true_eq]
      by_cases hqn : q.1 = name
      · rw [hqn]
        exact not_self_mem_calleesOf name q.2.1
      · exact hno q hq hqn
    simp [this]

theorem c7_fan_in_out_information_flow_witness :
    alookup (compute_fan_in_out demoCode) ['f'] =
      some (⟨0, 0, 0⟩ : FlowM) ∧
    (⟨0, 0, 0⟩ : FlowM).information_flow =
      ((⟨0, 0, 0⟩ : FlowM).fan_in * (⟨0, 0, 0⟩ : FlowM).fan_out) ^ 2 :=
  ⟨by decide,
   (c7_fan_in_out_information_flow demoCode ['f'] ⟨0, 0, 0⟩ (by decide)).1⟩

/-- C10: over every input text, the fan-in column of compute_fan_in_out
sums to at most the fan-out column: every counted fan-in edge has a
detected caller whose fan-out also counts it, while fan-out additionally
counts callees that are not detected functions. -/
theorem c10_total_fan_in_le_total_fan_out (code : List Char) :
    ((compute_fan_in_out code).map (fun p => p.2.fan_in)).sum ≤
    ((compute_fan_in_out code).map (fun p => p.2.fan_out)).sum := by
  unfold compute_fan_in_out
  simp only [List.map_map]
  have hkeys := buildFunctions_keys_nodup code
  calc ((buildFunctions code).map (fun p =>
          fanInCount (buildFunctions code) p.1)).sum
      = ((buildFunctions code).map (fun q =>
          (buildFunctions code).countP
            (fun p => decide (p.1 ∈ calleesOf q.1 q.2.1)))).sum := by
        unfold fanInCount
        exact sum_countP_comm (buildFunctions code) (buildFunctions code)
          (fun p q => decide (p.1 ∈ calleesOf q.1 q.2.1))
    _ ≤ ((buildFunctions code).map (fun q =>
          (calleesOf q.1 q.2.1).length)).sum := by
        apply List.sum_le_sum
        intro q hq
        have : (buildFunctions code).countP
            (fun p => decide (p.1 ∈ calleesOf q.1 q.2.1)) =
            ((buildFunctions code).map Prod.fst).countP
            (fun k => decide (k ∈ calleesOf q.1 q.2.1)) := by
          rw [List.countP_map]
          rfl
        rw [this]
        refine le_trans (le_of_eq ?_)
          (nodup_countP_mem_le ((buildFunctions code).map Prod.fst)
            (calleesOf q.1 q.2.1) hkeys)
        apply List.countP_congr
        intro a ha
        simp
    _ = ((buildFunctions code).map (fun p =>
          ((fun p => (p.1, (⟨fanInCount (buildFunctions code) p.1,
            (calleesOf p.1 p.2.1).length,
            (fanInCount (buildFunctions code) p.1 *
              (calleesOf p.1 p.2.1).length) ^ 2⟩ : FlowM))) p).2.fan_out)).sum := rfl

/-- C8: the inheritance-depth walk of compute_oo_metrics terminates for
every declared parent relation (depth_of is a total function): a class
already in the visited set yields 0, a class with no declared parent or
with itself as parent has depth 1, otherwise the depth is one more than the
parent's depth with the class added to the visited set, and the declared
two-cycle `A extends B`, `B extends A` yields the finite depth 2. -/
theorem c8_inheritance_depth_walk (parents : List (List Char × List Char))
    (cls : List Char) (seen : List (List Char)) :
    (cls ∈ seen → depth_of parents cls seen = 0) ∧
    (cls ∉ seen →
      (alookup parents cls = none ∨ alookup parents cls = some cls) →
      depth_of parents cls seen = 1) ∧
    (∀ p, cls ∉ seen → alookup parents cls = some p → p ≠ [] → p ≠ cls →
      depth_of parents cls seen = 1 + depth_of parents p (cls :: seen)) ∧
    depth_of twoCycleParents ['A'] [] = 2 := by
  refine ⟨?_, ?_, ?_, by decide⟩
  · intro hseen
    simp [depth_of, depthGo, hseen]
  · intro hseen hpar
    rcases hpar with hpar | hpar
    · simp [depth_of, depthGo, hseen, hpar]
    · simp [depth_of, depthGo, hseen, hpar]
  · intro p hseen hpar hne hnecls
    have hk : cls ∈ (parents.map Prod.fst).toFinset :=
      List.mem_toFinset.mpr (alookup_mem_keys hpar)
    have hmem : cls ∈ (parents.map Prod.fst).toFinset \ seen.toFinset :=
      Finset.mem_sdiff.mpr ⟨hk, fun hc => hseen (List.mem_toFinset.mp hc)⟩
    have hcard : ((parents.map Prod.fst).toFinset \ seen.toFinset).card =
        ((parents.map Prod.fst).toFinset \ (cls :: seen).toFinset).card + 1 := by
      rw [List.toFinset_cons, Finset.sdiff_insert, Finset.card_erase_of_mem hmem]
      have hpos : 0 < ((parents.map Prod.fst).toFinset \ seen.toFinset).card :=
        Finset.card_pos.mpr ⟨cls, hmem⟩
      omega
    unfold depth_of
    rw [hcard]
    simp [depthGo, hseen, hpar, hne, hnecls]

theorem c8_inheritance_depth_walk_witness :
    ['A'] ∈ [['A']] ∧ depth_of [] ['A'] [['A']] = 0 :=
  ⟨by decide, (c8_inheritance_depth_walk [] ['A'] [['A']]).1 (by decide)⟩

/-- C9: on operator list `["if","if","=="]` and operand list `["x","y"]`,
halstead_metrics returns n1=2, n2=2, N1=3, N2=2, Vocabulary=4,
ProgramLength=5, Volume=10, Difficulty=1 and Effort=10; and whenever the
vocabulary `n` or the distinct-operand count `n2` is 0, the derived metrics
Volume, Difficulty and Effort are all 0 while the counts n1, n2, N1, N2, n
and N are still reported. -/
theorem c9_halstead_example_and_degenerate_guard :
    ((halstead_metrics exOperators exOperands).n1 = 2 ∧
     (halstead_metrics exOperators exOperands).n2 = 2 ∧
     (halstead_metrics exOperators exOperands).N1 = 3 ∧
     (halstead_metrics exOperators exOperands).N2 = 2 ∧
     (halstead_metrics exOperators exOperands).Vocabulary = 4 ∧
     (halstead_metrics exOperators exOperands).ProgramLength = 5 ∧
     (halstead_metrics exOperators exOperands).Volume = 10 ∧
     (halstead_metrics exOperators exOperands).Difficulty = 1 ∧
     (halstead_metrics exOperators exOperands).Effort = 10) ∧
    (∀ operators operands : List (List Char),
      (operators.dedup.length + operands.dedup.length = 0 ∨
        operands.dedup.length = 0) →
      (halstead_metrics operators operands).Volume = 0 ∧
      (halstead_metrics operators operands).Difficulty = 0 ∧
      (halstead_metrics operators operands).Effort = 0 ∧
      (halstead_metrics operators operands).n1 = operators.dedup.length ∧
      (halstead_metrics operators operands).n2 = operands.dedup.length ∧
      (halstead_metrics operators operands).N1 = operators.length ∧
      (halstead_metrics operators operands).N2 = operands.length ∧
      (halstead_metrics operators operands).Vocabulary =
        operators.dedup.length + operands.dedup.length ∧
      (halstead_metrics operators operands).ProgramLength =
        operators.length + operands.length) := by
  constructor
  · have h1 : exOperators.dedup.length = 2 := by decide
    have h2 : exOperands.dedup.length = 2 := by decide
    have h3 : exOperators.length = 3 := by decide
    have h4 : exOperands.length = 2 := by decide
    have hlog : Real.logb 2 (4 : ℝ) = 2 := by
      rw [show ((4 : ℝ)) = (2 : ℝ) ^ (2 : Nat) by norm_num,
        Real.logb_pow]
      rw [Real.logb_self_eq_one (by norm_num)]
      norm_num
    unfold halstead_metrics
    rw [h1, h2, h3, h4]
    norm_num
    rw [hlog]
    norm_num
  · intro operators operands hdeg
    unfold halstead_metrics
    rw [if_pos hdeg]
    exact ⟨rfl, rfl, rfl, rfl, rfl, rfl, rfl, rfl, rfl⟩

theorem c9_halstead_example_and_degenerate_guard_witness :
    (([] : List (List Char)).dedup.length +
      ([] : List (List Char)).dedup.length = 0 ∨
      ([] : List (List Char)).dedup.length = 0) ∧
    (halstead_metrics [] []).Volume = 0 ∧
    (halstead_metrics [] []).Difficulty = 0 :=
  ⟨by decide,
   (c9_halstead_example_and_degenerate_guard.2 [] [] (by decide)).1,
   (c9_halstead_example_and_degenerate_guard.2 [] [] (by decide)).2.1⟩

/-- C1: the claim says a per-file failure is caught and analyze_project
still completes with an aggregated result; the per-file handler does catch,
but on this concrete run over one readable file analyze_project itself
raises: the size accumulators (total_loc, total_sloc, total_comments,
total_blank, total_avg_line_length) are never initialized, so the
aggregation reads an unbound local and the whole run aborts with
UnboundLocalError instead of returning a result. -/
theorem c1_analyze_project_aborts_on_single_file :
    analyze_project [⟨"a.js".toList, some [], [], []⟩] = Except.error () :=
  analyze_project_raises _ (by simp)

/-- C2 counterexample: a run over one readable file whose operator and
operand lists are both empty (empty pooled vocabulary) does not yield the
None outcome — analyze_project raises instead of returning `ok none`. -/
theorem c2_counterexample_empty_vocabulary_run :
    analyze_project [⟨"b.js".toList, some [], [], []⟩] = Except.error () ∧
    analyze_project [⟨"b.js".toList, some [], [], []⟩] ≠ Except.ok none := by
  have h := analyze_project_raises [⟨"b.js".toList, some [], [], []⟩] (by simp)
  exact ⟨h, by rw [h]; exact fun hc => Except.noConfusion hc⟩

/-- C2 (amended): a run with zero discovered files yields the explicit
None outcome; but a run with at least one file never yields None for an
empty pooled vocabulary: halstead_metrics always returns a populated
record — its degenerate branch keeps the counts and zeroes the derived
metrics, so `if not halstead_results` can never fire — and the current
analyze_project in fact raises UnboundLocalError in the size aggregation
before reaching any return. -/
theorem c2_no_metrics_outcomes :
    analyze_project [] = Except.ok none ∧
    (∀ files : List FileIn, files ≠ [] →
      analyze_project files = Except.error ()) ∧
    ((halstead_metrics [] []).n1 = 0 ∧
     (halstead_metrics [] []).Vocabulary = 0 ∧
     (halstead_metrics [] []).Volume = 0 ∧
     (halstead_metrics [] []).Difficulty = 0 ∧
     (halstead_metrics [] []).Effort = 0) := by
  refine ⟨rfl, analyze_project_raises, ?_⟩
  unfold halstead_metrics
  norm_num

theorem c2_no_metrics_outcomes_witness :
    ([⟨"c.js".toList, some [], [], []⟩] : List FileIn) ≠ [] ∧
    analyze_project [⟨"c.js".toList, some [], [], []⟩] = Except.error () :=
  ⟨by simp, c2_no_metrics_outcomes.2.1 [⟨"c.js".toList, some [], [], []⟩] (by simp)⟩

/-- C3: the claim says the aggregated size metrics are per-file sums and
the average of per-file averages; the aggregation code at the cited lines
would compute exactly that, but the accumulators it reads (total_loc,
total_sloc, total_comments, total_blank, total_avg_line_length) are never
initialized, so on this concrete two-file run analyze_project raises
UnboundLocalError in the size aggregation and no size metrics are
produced at all. -/
theorem c3_size_aggregation_aborts :
    analyze_project
      [⟨"a.js".toList, some "ab\ncd".toList, [], []⟩,
       ⟨"b.js".toList, some "x".toList, [], []⟩] = Except.error () :=
  analyze_project_raises _ (by simp)
